import Mathlib

/-!
Shallow embedding of the lyricshort effect pipeline (src/effects.py,
src/structures.py, src/utils.py).

Conventions of the embedding:
* Python floats become rationals; all the code does with them is subtract
  and compare, which is exact.
* The ffmpeg filter graph is an explicit syntax tree (`StreamNode`); each
  effect's `video_node` method becomes a function on that tree.
* File mutation is modelled by an abstract file value (`FileVal`) that
  records the encode history, threaded through a small state record
  (`RunSt`).  Whether an external ffmpeg invocation succeeds is an oracle
  (`EncOracle`) indexed by the number of encode attempts made so far.
* Python exceptions become an `Except PyErr` result; log calls become an
  explicit list of `LogEntry` values, where an entry records whether the
  captured stdout/stderr payload of a failed encode was written to the log
  or only the exception text.
-/

namespace Lyricshort

/-- Syntax tree of the ffmpeg filter graphs the code builds.  One
constructor per filter invocation appearing in the source. -/
inductive StreamNode where
  | input (path : String)
  | colorSource (color : String) (width height : Nat)
  | gblur (src : StreamNode) (sigma : ℚ)
  | formatRgba (src : StreamNode)
  | alphaMix (src : StreamNode) (aa : ℚ)
  | overlayOn (base top : StreamNode) (x y : ℤ) (eofRepeat : Bool)
  | drawtext (src : StreamNode) (text : String) (x y : ℚ) (fontsize : Nat)
      (fontcolor boxcolor : String) (enableFrom enableTo : ℚ)
      (fontfile : Option String)
  deriving DecidableEq

/-- Vertical alignment of a symbolic text position (structures.py `TextPosition`). -/
inductive VAlign where
  | top
  | center
  | bottom
  deriving DecidableEq

/-- Horizontal alignment of a symbolic text position (structures.py `TextPosition`). -/
inductive HAlign where
  | left
  | center
  | right
  deriving DecidableEq

/-- structures.py `TextPosition`. -/
structure TextPosition where
  vertical : VAlign
  horizontal : HAlign
  deriving DecidableEq

/-- The `tuple[int, int] | TextPosition` union used for the `position` field. -/
inductive Placement where
  | coords (x y : ℤ)
  | sym (p : TextPosition)
  deriving DecidableEq

/-- structures.py `TextOverlayProperties`. -/
structure TextOverlayProperties where
  text : String
  position : Placement
  font_size : Nat := 12
  color : String := "black"
  background_color : String := "0x00000000"
  start_time : Option ℚ := none
  duration : ℤ := 3
  offset : ℤ × ℤ := (0, 0)
  deriving DecidableEq

/-- structures.py `TrimEffect` (fields only; no validation is performed on them). -/
structure TrimEffect where
  start_time : ℚ
  end_time : ℚ
  deriving DecidableEq

/-- structures.py `BlurEffect`. -/
structure BlurEffect where
  radius : ℚ := 5
  deriving DecidableEq

/-- structures.py `FillOverlayEffect` (fields only; no validation is performed on them). -/
structure FillOverlayEffect where
  color : String
  opacity : ℚ := 1 / 2
  deriving DecidableEq

/-- structures.py `TextOverlayEffect`. -/
structure TextOverlayEffect where
  texts : List TextOverlayProperties
  deriving DecidableEq

/-- The closed set of `Effect` subclasses in structures.py. -/
inductive Effect where
  | trim (t : TrimEffect)
  | blur (b : BlurEffect)
  | fillOverlay (f : FillOverlayEffect)
  | textOverlay (t : TextOverlayEffect)
  deriving DecidableEq

/-- Environment for one media file: everything the code reads from the
outside world (ffmpeg probe results, PIL font metrics, the font cache). -/
structure Env where
  path : String
  width : Nat
  height : Nat
  streamStart : ℚ
  audioCodec : Option String
  fontDims : Nat → String → ℚ × ℚ
  currentFontFile : Option String

/-- Audio codec policy shared by every apply in the source:
`"copy" if audio_codec == "aac" else "aac"`. -/
def acodecFor (env : Env) : String :=
  if env.audioCodec = some "aac" then "copy" else "aac"

/-- structures.py `TrimEffect.video_node`: returns the input stream unchanged. -/
def TrimEffect.videoNode (_t : TrimEffect) (s : StreamNode) : StreamNode := s

/-- structures.py `BlurEffect.video_node`: a `gblur` filter with `sigma = radius`. -/
def BlurEffect.videoNode (b : BlurEffect) (s : StreamNode) : StreamNode :=
  .gblur s b.radius

/-- structures.py `FillOverlayEffect.video_node`: a lavfi color source of the
frame dimensions, formatted rgba, alpha-mixed with the configured opacity,
overlaid on the rgba-formatted input. -/
def FillOverlayEffect.videoNode (f : FillOverlayEffect) (env : Env)
    (s : StreamNode) : StreamNode :=
  .overlayOn (.formatRgba s)
    (.alphaMix (.formatRgba (.colorSource f.color env.width env.height)) f.opacity)
    0 0 true

/-- One `drawtext` stage of structures.py `TextOverlayEffect.video_node`:
resolves the start time, the font box, the symbolic-or-pixel position and
the pixel offset exactly as the source does. -/
def drawOne (env : Env) (s : StreamNode) (tp : TextOverlayProperties) : StreamNode :=
  let startT : ℚ :=
    match tp.start_time with
    | none => env.streamStart
    | some t => t
  let dims := env.fontDims tp.font_size tp.text
  let xy : ℚ × ℚ :=
    match tp.position with
    | .coords x y => ((x : ℚ), (y : ℚ))
    | .sym p =>
        let x : ℚ :=
          match p.horizontal with
          | .left => 0
          | .center => ((env.width : ℚ) - dims.1) / 2
          | .right => (env.width : ℚ) - dims.1
        let y : ℚ :=
          match p.vertical with
          | .top => 0
          | .center => ((env.height : ℚ) - dims.2) / 2
          | .bottom => (env.height : ℚ) - dims.2
        (x, y)
  .drawtext s tp.text (xy.1 + (tp.offset.1 : ℚ)) (xy.2 + (tp.offset.2 : ℚ))
    tp.font_size tp.color tp.background_color startT (startT + (tp.duration : ℚ))
    env.currentFontFile

/-- structures.py `TextOverlayEffect.video_node`: folds one drawtext stage
per entry onto the node chain. -/
def TextOverlayEffect.videoNode (t : TextOverlayEffect) (env : Env)
    (s : StreamNode) : StreamNode :=
  t.texts.foldl (drawOne env) s

/-- Dynamic dispatch of `video_node` over the `Effect` union. -/
def Effect.videoNode (env : Env) : Effect → StreamNode → StreamNode
  | .trim t, s => t.videoNode s
  | .blur b, s => b.videoNode s
  | .fillOverlay f, s => f.videoNode env s
  | .textOverlay t, s => t.videoNode env s

/-- The captured diagnostic streams of a failed external encode
(`ffmpeg.Error.stdout` / `.stderr`; `none` models an empty capture). -/
structure FfmpegFail where
  stdoutPayload : Option String
  stderrPayload : Option String
  deriving DecidableEq

/-- The Python exceptions the modelled code can raise. -/
inductive PyErr where
  | valueErr (msg : String)
  | assertionErr (msg : String)
  | ffmpegErr (f : FfmpegFail)
  | indexErr
  deriving DecidableEq

/-- One log call.  `errorExc` is a `logger.error` that interpolates only the
exception object (whose text does not include the captured streams);
`errorPayload` is a `logger.error` passed a decoded stdout/stderr stream. -/
inductive LogEntry where
  | info (tag : String)
  | errorExc (tag : String)
  | errorPayload (payload : String)
  deriving DecidableEq

/-- Abstract value of the media file at `file_path`, recording the history
of successful encode steps that produced it. -/
inductive FileVal where
  | orig
  | trimmed (startT endT : ℚ) (acodec : String) (prev : FileVal)
  | encoded (graph : StreamNode) (acodec : String) (pixFmt : Option String)
      (prev : FileVal)
  deriving DecidableEq

/-- Outcome oracle for external ffmpeg invocations, indexed by how many
encode attempts the process has made so far: `none` means the invocation
succeeds, `some f` means it raises `ffmpeg.Error` with captured streams `f`. -/
abbrev EncOracle := Nat → Option FfmpegFail

/-- Mutable state threaded through a pipeline run: the media file's value
and the number of encode attempts made so far. -/
structure RunSt where
  file : FileVal
  encodes : Nat
  deriving DecidableEq

deriving instance DecidableEq for Except

/-- Result of running a modelled code path: Python outcome, final state and
the log entries emitted (in order). -/
structure RunOut (α : Type) where
  res : Except PyErr α
  st : RunSt
  log : List LogEntry
  deriving DecidableEq

/-- One graph-based encode invocation (structures.py / effects.py pattern:
`NamedTemporaryFile` + `ffmpeg.output(...).run()` + `os.replace`): on
success the fresh temp output atomically replaces the file; on failure the
temp file is abandoned and the file is untouched. -/
def runEncodeGraph (orc : EncOracle) (g : StreamNode) (acodec : String)
    (pixFmt : Option String) (st : RunSt) : Except FfmpegFail Unit × RunSt :=
  match orc st.encodes with
  | none => (.ok (), { file := .encoded g acodec pixFmt st.file, encodes := st.encodes + 1 })
  | some f => (.error f, { file := st.file, encodes := st.encodes + 1 })

/-- The trim encode invocation (structures.py `TrimEffect.apply`:
`ffmpeg.input(path, ss, to)` stream-copied to a temp file, then `os.replace`). -/
def runTrimEncode (orc : EncOracle) (t : TrimEffect) (acodec : String)
    (st : RunSt) : Except FfmpegFail Unit × RunSt :=
  match orc st.encodes with
  | none =>
      (.ok (), { file := .trimmed t.start_time t.end_time acodec st.file
               , encodes := st.encodes + 1 })
  | some f => (.error f, { file := st.file, encodes := st.encodes + 1 })

/-- Lift an encode result into a run result, mapping an ffmpeg failure to
the raised `ffmpeg.Error`. -/
def liftEncode (r : Except FfmpegFail Unit × RunSt) : RunOut Unit :=
  match r with
  | (.ok _, st') => ⟨.ok (), st', []⟩
  | (.error f, st') => ⟨.error (.ffmpegErr f), st', []⟩

/-- logger.py `MyLogger.log_apply`, the wrapper installed around every
`Effect.apply` by `__init_subclass__`: validates the path, logs entry, logs
only the exception text on failure (re-raising), logs success otherwise. -/
def logApplyWrap (env : Env) (name : String) (st : RunSt) (body : RunOut Unit) :
    RunOut Unit :=
  if env.path = "" then
    ⟨.error (.valueErr "File path must be provided for using effect"), st, []⟩
  else
    match body.res with
    | .ok _ =>
        ⟨.ok (), body.st,
          .info ("Applying effect: " ++ name) ::
            (body.log ++ [.info ("Effect " ++ name ++ " applied successfully")])⟩
    | .error e =>
        ⟨.error e, body.st,
          .info ("Applying effect: " ++ name) :: (body.log ++ [.errorExc name])⟩

/-- structures.py `TrimEffect.apply` (wrapped by `log_apply`). -/
def TrimEffect.applyE (orc : EncOracle) (env : Env) (t : TrimEffect)
    (st : RunSt) : RunOut Unit :=
  logApplyWrap env "TrimEffect" st
    (liftEncode (runTrimEncode orc t (acodecFor env) st))

/-- structures.py `BlurEffect.apply` (wrapped by `log_apply`). -/
def BlurEffect.applyE (orc : EncOracle) (env : Env) (b : BlurEffect)
    (st : RunSt) : RunOut Unit :=
  logApplyWrap env "BlurEffect" st
    (liftEncode (runEncodeGraph orc (b.videoNode (.input env.path))
      (acodecFor env) none st))

/-- structures.py `FillOverlayEffect.apply` (wrapped by `log_apply`; note the
extra `pix_fmt="yuv420p"` output argument). -/
def FillOverlayEffect.applyE (orc : EncOracle) (env : Env)
    (f : FillOverlayEffect) (st : RunSt) : RunOut Unit :=
  logApplyWrap env "FillOverlayEffect" st
    (liftEncode (runEncodeGraph orc (f.videoNode env (.input env.path))
      (acodecFor env) (some "yuv420p") st))

/-- structures.py `TextOverlayEffect.apply` (wrapped by `log_apply`). -/
def TextOverlayEffect.applyE (orc : EncOracle) (env : Env)
    (t : TextOverlayEffect) (st : RunSt) : RunOut Unit :=
  logApplyWrap env "TextOverlayEffect" st
    (liftEncode (runEncodeGraph orc (t.videoNode env (.input env.path))
      (acodecFor env) none st))

/-- Dynamic dispatch of `apply` over the `Effect` union. -/
def Effect.applyE (orc : EncOracle) (env : Env) : Effect → RunSt → RunOut Unit
  | .trim t, st => t.applyE orc env st
  | .blur b, st => b.applyE orc env st
  | .fillOverlay f, st => f.applyE orc env st
  | .textOverlay t, st => t.applyE orc env st

/-- `isinstance(effect, TrimEffect)`. -/
def isTrimE : Effect → Bool
  | .trim _ => true
  | _ => false

/-- effects.py line 68: `sum(isinstance(effect, TrimEffect) for effect in effects)`. -/
def countTrims : List Effect → Nat
  | [] => 0
  | .trim _ :: rest => countTrims rest + 1
  | _ :: rest => countTrims rest

/-- effects.py lines 80-87: thread the video node of `ffmpeg.input(file_path)`
through every effect's `video_node` in list order. -/
def buildGraph (env : Env) (effects : List Effect) : StreamNode :=
  effects.foldl (fun v e => Effect.videoNode env e v) (.input env.path)

/-- effects.py lines 76-118 (the part of `apply_effects` after validation):
log, apply `effects[0]` standalone, build the fused graph over the whole
list, encode it once to a temp file and replace; on encode failure log the
exception and both captured streams and re-raise. -/
def applyEffectsRun (orc : EncOracle) (env : Env) (effects : List Effect)
    (e0 : Effect) (st : RunSt) : RunOut Unit :=
  let r0 := Effect.applyE orc env e0 st
  match r0.res with
  | .error err => ⟨.error err, r0.st, .info "Applying effects" :: r0.log⟩
  | .ok _ =>
      match runEncodeGraph orc (buildGraph env effects) (acodecFor env) none r0.st with
      | (.ok _, st') =>
          ⟨.ok (), st',
            .info "Applying effects" ::
              (r0.log ++ [.info "All effects applied successfully."])⟩
      | (.error f, st') =>
          ⟨.error (.ffmpegErr f), st',
            .info "Applying effects" ::
              (r0.log ++
                [.errorExc "Error applying effects",
                 .errorPayload (f.stdoutPayload.getD "No ffmpeg stdout"),
                 .errorPayload (f.stderrPayload.getD "No ffmpeg stderr")])⟩

/-- effects.py `EditorEffects.apply_effects`: empty list is a no-op; more
than one `TrimEffect` raises `ValueError`; exactly one `TrimEffect` asserts
it is the first element; then the shared body `applyEffectsRun` runs. -/
def applyEffects (orc : EncOracle) (env : Env) (effects : List Effect)
    (st : RunSt) : RunOut Unit :=
  match effects with
  | [] => ⟨.ok (), st, []⟩
  | e0 :: _ =>
      let cnt := countTrims effects
      if 1 < cnt then
        ⟨.error (.valueErr "Multiple TrimEffects found, only one is allowed."),
          st, [.errorExc "Use only one TrimEffect at a time. Found multiple."]⟩
      else if cnt = 1 ∧ isTrimE e0 = false then
        ⟨.error (.assertionErr "First effect must be TrimEffect"), st, []⟩
      else
        applyEffectsRun orc env effects e0 st

/-- The spec's `ConfigError` taxonomy entry for multiple trims, as realized
in the code: the `ValueError` raised by `apply_effects`. -/
def configErrorMultipleTrims : PyErr :=
  .valueErr "Multiple TrimEffects found, only one is allowed."

/-- Oracle under which every external encode succeeds. -/
def orcOK : EncOracle := fun _ => none

/-- Initial state: the untouched downloaded file, no encodes yet. -/
def st0 : RunSt := ⟨.orig, 0⟩

/-- A concrete environment used for witnesses and counterexamples. -/
def env0 : Env :=
  { path := "media.mp4"
  , width := 640
  , height := 360
  , streamStart := 0
  , audioCodec := some "aac"
  , fontDims := fun _ _ => (0, 0)
  , currentFontFile := none }

/-- effects.py `add_subtitles` constants. -/
def FONT_SIZE : Nat := 35

/-- Base vertical slot offset in `add_subtitles`. -/
def INIT_OFFSET : Nat := 20

/-- Extra inter-line gap per row in `add_subtitles`. -/
def LINE_GAP : Nat := 5

/-- One parsed srt cue (index, raw content, absolute start/end seconds). -/
structure Cue where
  index : Nat
  content : String
  startT : ℚ
  endT : ℚ
  deriving DecidableEq

/-- Replacement of every newline character by a space
(`content.replace("\n", " ")`), character by character. -/
def replaceNlChars : List Char → List Char
  | [] => []
  | c :: rest => (if c == '\n' then ' ' else c) :: replaceNlChars rest

/-- Python `str.strip` whitespace class: space, tab, newline, carriage
return, vertical tab, form feed. -/
def isSpaceChar (c : Char) : Bool :=
  c == ' ' || c == '\t' || c == '\n' || c == '\r' || c.toNat == 11 || c.toNat == 12

/-- Python `str.strip()`: drop that whitespace from both ends. -/
def stripChars (l : List Char) : List Char :=
  ((l.dropWhile isSpaceChar).reverse.dropWhile isSpaceChar).reverse

/-- `subtitle.content.replace("\n", " ").strip()`. -/
def collapseText (s : String) : String :=
  ⟨stripChars (replaceNlChars s.data)⟩

/-- Python `int(q)`: truncation toward zero. -/
def pyInt (q : ℚ) : ℤ :=
  q.num.tdiv (q.den : ℤ)

/-- First-match lookup in the `overlay_spots` dict (modelled as an
association list updated by consing, so the head is the latest binding). -/
def spotLookup (o : Nat) : List (Nat × ℚ) → Option ℚ
  | [] => none
  | (k, e) :: rest => if k = o then some e else spotLookup o rest

/-- The loop-exit test of the slot scan in `add_subtitles`: the offset is
unused, or the end-time last recorded there is at most the new cue's start
(`start_time >= end_last`). -/
def slotOpen (spots : List (Nat × ℚ)) (startT : ℚ) (o : Nat) : Bool :=
  match spotLookup o spots with
  | none => true
  | some endLast => endLast ≤ startT

/-- Fuelled form of the unbounded `while True` slot scan: try the current
offset, else move down one `FONT_SIZE`. -/
def findSlotFuel (spots : List (Nat × ℚ)) (startT : ℚ) : Nat → Nat → Nat
  | 0, o => o
  | fuel + 1, o =>
      if slotOpen spots startT o then o
      else findSlotFuel spots startT fuel (o + FONT_SIZE)

/-- The slot scan of `add_subtitles`, started at `INIT_OFFSET`.  Fuel
`spots.length + 1` is proved sufficient below (`findSlot_open`): the scan
always stops at an offset satisfying `slotOpen`. -/
def findSlot (spots : List (Nat × ℚ)) (startT : ℚ) : Nat :=
  findSlotFuel spots startT (spots.length + 1) INIT_OFFSET

/-- One cue as placed by the layout loop: collapsed text, translated
window, assigned vertical slot. -/
structure PlacedCue where
  index : Nat
  text : String
  startT : ℚ
  endT : ℚ
  slot : Nat
  deriving DecidableEq

/-- The cue-processing loop of effects.py `add_subtitles` (lines 170-217):
translate each cue by the reference start time, skip cues ending before 0,
stop at the first cue starting after `duration`, otherwise scan for a free
vertical slot, record the cue's end there and emit the placement. -/
def layoutCues (startOff duration : ℚ) : List Cue → List (Nat × ℚ) → List PlacedCue
  | [], _ => []
  | c :: rest, spots =>
      let s : ℚ := c.startT - startOff
      let e : ℚ := c.endT - startOff
      if e < 0 then layoutCues startOff duration rest spots
      else if duration < s then []
      else
        let o := findSlot spots s
        ⟨c.index, collapseText c.content, s, e, o⟩ ::
          layoutCues startOff duration rest ((o, e) :: spots)

/-- The `TextOverlayProperties` built for one placed cue in `add_subtitles`
(centered, white, fixed font size, truncated duration, vertical offset with
the extra per-row line gap). -/
def mkSubtitleProp (p : PlacedCue) : TextOverlayProperties :=
  { text := p.text
  , position := .sym ⟨.center, .center⟩
  , font_size := FONT_SIZE
  , color := "white"
  , background_color := "0x00000000"
  , start_time := some p.startT
  , duration := pyInt (p.endT - p.startT)
  , offset := (0, (p.slot + (p.slot - INIT_OFFSET) / FONT_SIZE * LINE_GAP : Nat)) }

/-- The full subtitle pass of `add_subtitles`: the overlay entries handed to
the single `TextOverlayEffect`. -/
def addSubtitlesProps (startOff duration : ℚ) (cues : List Cue) :
    List TextOverlayProperties :=
  (layoutCues startOff duration cues []).map mkSubtitleProp

/-- Follows the spec's words (spec 4.4 step 1): drop cues whose translated
end time is below 0; stop at the first cue whose translated start time
exceeds the duration window; keep everything else, in order.  Used to
compare the code's layout loop against the spec's filtering policy. -/
def survivorsSpec (startOff duration : ℚ) : List Cue → List Cue
  | [] => []
  | c :: rest =>
      if c.endT - startOff < 0 then survivorsSpec startOff duration rest
      else if duration < c.startT - startOff then []
      else c :: survivorsSpec startOff duration rest

/-- Overlap of two placed cues' translated time windows, read as
half-open intervals. -/
def windowsOverlap (p q : PlacedCue) : Prop :=
  p.startT < q.endT ∧ q.startT < p.endT

/-- One discovered font file: basename and full path (utils.py
`all_fonts` maps basename to path). -/
structure FontFile where
  base : String
  path : String
  deriving DecidableEq

/-- First four characters lowercase to `n`, `o`, `t`, `o`.  The only
characters whose Unicode lowercase form is one of these ASCII letters are
those letters themselves in either case, so this is exactly
`chars.lower().startswith("noto")` at character level. -/
def matchNotoAt : List Char → Bool
  | n :: o1 :: t :: o2 :: _ =>
      (n == 'n' || n == 'N') && (o1 == 'o' || o1 == 'O') &&
        (t == 't' || t == 'T') && (o2 == 'o' || o2 == 'O')
  | _ => false

/-- The preferred-family test of utils.py `get_current_font`:
`base_name.lower().startswith("noto")`. -/
def notoNamed (f : FontFile) : Bool :=
  matchNotoAt f.base.data

/-- The selection loop of `get_current_font`: the first font whose basename
starts with "noto" (case-insensitive), if any. -/
def pickFont : List FontFile → Option FontFile
  | [] => none
  | f :: rest => if notoNamed f then some f else pickFont rest

/-- Python `random.choice`: raises `IndexError` on an empty sequence,
otherwise returns the element at the drawn index (the draw is the
parameter `i`). -/
def randomChoice : List FontFile → Nat → Except PyErr FontFile
  | [], _ => .error .indexErr
  | f :: rest, i => .ok ((f :: rest).getD (i % (rest.length + 1)) f)

/-- utils.py `FontUtils.get_current_font`, with the process-wide
`_CURRENT_FONT` cache made an explicit argument and result: return the
cached font if set; else the first "noto"-named font; else a random
available font; cache and return the selection.  There is no further
fallback: with no fonts available the call raises. -/
def getCurrentFont (cur : Option String) (fonts : List FontFile) (i : Nat) :
    Except PyErr (String × Option String) :=
  match cur with
  | some f => .ok (f, some f)
  | none =>
      match pickFont fonts with
      | some f => .ok (f.path, some f.path)
      | none =>
          match randomChoice fonts i with
          | .ok f => .ok (f.path, some f.path)
          | .error e => .error e

/-- Case-insensitive substring scan for "noto" over a character list. -/
def containsNotoChars : List Char → Bool
  | [] => false
  | c :: rest => matchNotoAt (c :: rest) || containsNotoChars rest

/-- Case-insensitive substring test for "noto", used to state what the
spec's "preferred-family substring" reading would require. -/
def hasNotoSub (s : String) : Bool :=
  containsNotoChars s.data

/-- Oracle under which the first external encode of the process fails with
captured streams "OUT"/"ERR" and every later one succeeds. -/
def orcFail0 : EncOracle :=
  fun n => if n = 0 then some ⟨some "OUT", some "ERR"⟩ else none

/-- Oracle under which the second external encode of the process fails with
captured streams "OUT2"/"ERR2" and every other one succeeds. -/
def orcFail1 : EncOracle :=
  fun n => if n = 1 then some ⟨some "OUT2", some "ERR2"⟩ else none

/-- Membership test for the arithmetic progression of candidate slot
offsets starting at `o` (step `FONT_SIZE`); used only to bound the slot
scan's fuel. -/
def inProg (o k : Nat) : Bool :=
  decide (o ≤ k) && decide ((k - o) % FONT_SIZE = 0)

/-- Trim counting distributes over append. -/
theorem countTrims_append (l1 l2 : List Effect) :
    countTrims (l1 ++ l2) = countTrims l1 + countTrims l2 := by
  induction l1 with
  | nil => simp [countTrims]
  | cons e rest ih => cases e <;> (simp [countTrims, ih]; try omega)

/-- A non-trim head does not change the trim count. -/
theorem countTrims_cons_ne (e : Effect) (l : List Effect) (h : isTrimE e = false) :
    countTrims (e :: l) = countTrims l := by
  cases e <;> simp_all [countTrims, isTrimE]

/-- Claim C10: the Trim effect's filter-graph node contribution is the
identity function: `TrimEffect.video_node` returns the stream unchanged,
so threading a Trim through a fused filter graph adds no transformation. -/
theorem c10_trim_node_identity :
    (∀ (t : TrimEffect) (s : StreamNode), t.videoNode s = s) ∧
    (∀ (env : Env) (t : TrimEffect) (rest : List Effect),
      buildGraph env (Effect.trim t :: rest) = buildGraph env rest) :=
  ⟨fun _ _ => rfl, fun _ _ _ => rfl⟩

/-- Claim C1 (evaluated at the failing input): on the Trim-free list
`[FillOverlayEffect("black", 0.6)]`, `apply_effects` performs TWO encode
passes, not one: `effects[0]` is applied standalone (first `encoded` entry,
from `FillOverlayEffect.apply`) and the same effect is then applied again
inside the fused batch over the already-filled file (outer `encoded`
entry).  The claim's single fused pass with no standalone apply is
violated. -/
theorem c1_first_effect_applied_twice :
    (applyEffects orcOK env0 [Effect.fillOverlay ⟨"black", 3/5⟩] st0).res = .ok () ∧
    (applyEffects orcOK env0 [Effect.fillOverlay ⟨"black", 3/5⟩] st0).st.encodes = 2 ∧
    (applyEffects orcOK env0 [Effect.fillOverlay ⟨"black", 3/5⟩] st0).st.file =
      .encoded (buildGraph env0 [Effect.fillOverlay ⟨"black", 3/5⟩]) "copy" none
        (.encoded (FillOverlayEffect.videoNode ⟨"black", 3/5⟩ env0 (.input "media.mp4"))
          "copy" (some "yuv420p") .orig) :=
  ⟨rfl, rfl, rfl⟩

/-- Claim C2 is false as stated: with exactly one Trim at a position other
than the first, `apply_effects` raises `AssertionError` ("First effect must
be TrimEffect") before any encode work, instead of running the pre-trim
batch, the standalone Trim and the post-trim batch. -/
theorem c2_trim_not_first_asserts :
    applyEffects orcOK env0
        [Effect.fillOverlay ⟨"black", 3/5⟩, Effect.trim ⟨25, 45⟩] st0 =
      ⟨.error (.assertionErr "First effect must be TrimEffect"), st0, []⟩ :=
  rfl

/-- Claim C2 amended: for a list with exactly one Trim, the code requires
the Trim to be the first element.  Trim-first lists run as: standalone Trim
apply, then ONE fused batch over the whole list (in which the Trim
contributes an identity node), with exactly two encode passes; a Trim at
any later position raises `AssertionError` with no encode work and no file
mutation. -/
theorem c2_trim_first_split_policy :
    (∀ (env : Env) (t : TrimEffect) (rest : List Effect) (st : RunSt),
        countTrims rest = 0 → env.path ≠ "" →
        applyEffects orcOK env (Effect.trim t :: rest) st =
          ⟨.ok (),
            ⟨.encoded (buildGraph env (Effect.trim t :: rest)) (acodecFor env) none
                (.trimmed t.start_time t.end_time (acodecFor env) st.file),
              st.encodes + 2⟩,
            [.info "Applying effects", .info "Applying effect: TrimEffect",
              .info "Effect TrimEffect applied successfully",
              .info "All effects applied successfully."]⟩ ∧
          buildGraph env (Effect.trim t :: rest) = buildGraph env rest) ∧
    (∀ (orc : EncOracle) (env : Env) (st : RunSt) (t : TrimEffect) (e0 : Effect)
        (pre post : List Effect),
        isTrimE e0 = false → countTrims pre = 0 → countTrims post = 0 →
        applyEffects orc env (e0 :: (pre ++ Effect.trim t :: post)) st =
          ⟨.error (.assertionErr "First effect must be TrimEffect"), st, []⟩) := by
  constructor
  · intro env t rest st h hp
    refine ⟨?_, rfl⟩
    simp [applyEffects, countTrims, h, isTrimE, applyEffectsRun, Effect.applyE,
      TrimEffect.applyE, logApplyWrap, hp, liftEncode, runTrimEncode,
      runEncodeGraph, orcOK]
  · intro orc env st t e0 pre post h0 hpre hpost
    have hcnt : countTrims (e0 :: (pre ++ Effect.trim t :: post)) = 1 := by
      rw [countTrims_cons_ne _ _ h0, countTrims_append]
      cases t
      simp [countTrims, hpre, hpost]
    simp [applyEffects, hcnt, h0]

/-- Witness for the amended C2: a Trim-first run (with the fused graph
collapsing to the post-trim segment's graph) and a misordered-Trim
assertion failure, at concrete inputs. -/
theorem c2_trim_first_split_policy_witness :
    (applyEffects orcOK env0
        [Effect.trim ⟨25, 45⟩, Effect.fillOverlay ⟨"black", 3/5⟩] st0 =
      ⟨.ok (),
        ⟨.encoded (buildGraph env0
            [Effect.trim ⟨25, 45⟩, Effect.fillOverlay ⟨"black", 3/5⟩])
            (acodecFor env0) none (.trimmed 25 45 (acodecFor env0) .orig),
          2⟩,
        [.info "Applying effects", .info "Applying effect: TrimEffect",
          .info "Effect TrimEffect applied successfully",
          .info "All effects applied successfully."]⟩ ∧
      buildGraph env0 [Effect.trim ⟨25, 45⟩, Effect.fillOverlay ⟨"black", 3/5⟩] =
        buildGraph env0 [Effect.fillOverlay ⟨"black", 3/5⟩]) ∧
    applyEffects orcOK env0
        [Effect.fillOverlay ⟨"black", 3/5⟩, Effect.trim ⟨25, 45⟩] st0 =
      ⟨.error (.assertionErr "First effect must be TrimEffect"), st0, []⟩ :=
  ⟨c2_trim_first_split_policy.1 env0 ⟨25, 45⟩ [Effect.fillOverlay ⟨"black", 3/5⟩]
      st0 (by decide) (by decide),
    c2_trim_first_split_policy.2 orcOK env0 st0 ⟨25, 45⟩
      (Effect.fillOverlay ⟨"black", 3/5⟩) [] [] (by decide) (by decide) (by decide)⟩

/-- Claim C3: a list with two or more Trims is rejected with the spec's
`ConfigError` (the `ValueError` raised by `apply_effects`) before any
encode work: the state (file value and encode count) is returned untouched
and only the validation error is logged. -/
theorem c3_multiple_trims_rejected :
    ∀ (orc : EncOracle) (env : Env) (effects : List Effect) (st : RunSt),
      2 ≤ countTrims effects →
      applyEffects orc env effects st =
        ⟨.error configErrorMultipleTrims, st,
          [.errorExc "Use only one TrimEffect at a time. Found multiple."]⟩ := by
  intro orc env effects st h
  match effects with
  | [] => simp [countTrims] at h
  | e :: rest =>
      have : 1 < countTrims (e :: rest) := h
      simp [applyEffects, this, configErrorMultipleTrims]

/-- Witness for C3 at a concrete two-trim list. -/
theorem c3_multiple_trims_rejected_witness :
    applyEffects orcOK env0 [Effect.trim ⟨0, 1⟩, Effect.trim ⟨2, 3⟩] st0 =
      ⟨.error configErrorMultipleTrims, st0,
        [.errorExc "Use only one TrimEffect at a time. Found multiple."]⟩ :=
  c3_multiple_trims_rejected orcOK env0 _ st0 (by decide)

/-- Claim C4 is false as stated for the standalone Trim encode step: when
the Trim's encode inside `apply_effects` fails, the original file is left
unchanged and the error is re-raised, but the tool's captured stdout and
stderr diagnostics are NOT logged anywhere (the `log_apply` wrapper logs
only the exception text, and `apply_effects` does not wrap the standalone
apply in its stream-logging handler). -/
theorem c4_standalone_trim_failure_streams_unlogged :
    (applyEffects orcFail0 env0
        [Effect.trim ⟨25, 45⟩, Effect.fillOverlay ⟨"black", 3/5⟩] st0).res =
      .error (.ffmpegErr ⟨some "OUT", some "ERR"⟩) ∧
    (applyEffects orcFail0 env0
        [Effect.trim ⟨25, 45⟩, Effect.fillOverlay ⟨"black", 3/5⟩] st0).st.file = .orig ∧
    LogEntry.errorPayload "ERR" ∉
      (applyEffects orcFail0 env0
        [Effect.trim ⟨25, 45⟩, Effect.fillOverlay ⟨"black", 3/5⟩] st0).log ∧
    LogEntry.errorPayload "OUT" ∉
      (applyEffects orcFail0 env0
        [Effect.trim ⟨25, 45⟩, Effect.fillOverlay ⟨"black", 3/5⟩] st0).log := by
  decide

/-- Claim C4 amended: every encode step writes to a fresh temporary file
and replaces the original only on success, and on failure the original is
unchanged and the error is re-raised; the fused-batch encode failure logs
the tool's stdout and stderr diagnostics, while a standalone Trim apply
failure inside `apply_effects` logs only the exception text, not the
captured streams.  Stated for Trim-first effect lists over an arbitrary
encode oracle. -/
theorem c4_encode_step_atomicity :
    ∀ (orc : EncOracle) (env : Env) (t : TrimEffect) (rest : List Effect)
      (st : RunSt) (f : FfmpegFail),
      countTrims rest = 0 → env.path ≠ "" →
      (orc st.encodes = some f →
        applyEffects orc env (Effect.trim t :: rest) st =
          ⟨.error (.ffmpegErr f), ⟨st.file, st.encodes + 1⟩,
            [.info "Applying effects", .info "Applying effect: TrimEffect",
              .errorExc "TrimEffect"]⟩) ∧
      (orc st.encodes = none → orc (st.encodes + 1) = some f →
        (applyEffects orc env (Effect.trim t :: rest) st).res =
            .error (.ffmpegErr f) ∧
        (applyEffects orc env (Effect.trim t :: rest) st).st.file =
            .trimmed t.start_time t.end_time (acodecFor env) st.file ∧
        LogEntry.errorPayload (f.stdoutPayload.getD "No ffmpeg stdout") ∈
            (applyEffects orc env (Effect.trim t :: rest) st).log ∧
        LogEntry.errorPayload (f.stderrPayload.getD "No ffmpeg stderr") ∈
            (applyEffects orc env (Effect.trim t :: rest) st).log) ∧
      (orc st.encodes = none → orc (st.encodes + 1) = none →
        (applyEffects orc env (Effect.trim t :: rest) st).res = .ok () ∧
        (applyEffects orc env (Effect.trim t :: rest) st).st.file =
          .encoded (buildGraph env (Effect.trim t :: rest)) (acodecFor env) none
            (.trimmed t.start_time t.end_time (acodecFor env) st.file)) := by
  intro orc env t rest st f h hp
  refine ⟨?_, ?_, ?_⟩
  · intro hfail
    simp [applyEffects, countTrims, h, isTrimE, applyEffectsRun, Effect.applyE,
      TrimEffect.applyE, logApplyWrap, hp, liftEncode, runTrimEncode, hfail]
  · intro hok hfail
    simp [applyEffects, countTrims, h, isTrimE, applyEffectsRun, Effect.applyE,
      TrimEffect.applyE, logApplyWrap, hp, liftEncode, runTrimEncode,
      runEncodeGraph, hok, hfail]
  · intro hok hok2
    simp [applyEffects, countTrims, h, isTrimE, applyEffectsRun, Effect.applyE,
      TrimEffect.applyE, logApplyWrap, hp, liftEncode, runTrimEncode,
      runEncodeGraph, hok, hok2]

/-- Witness for the amended C4 at concrete inputs: a first-encode failure
(standalone Trim step), a second-encode failure (fused batch step) and an
all-success run. -/
theorem c4_encode_step_atomicity_witness :
    (applyEffects orcFail0 env0 [Effect.trim ⟨25, 45⟩] st0 =
      ⟨.error (.ffmpegErr ⟨some "OUT", some "ERR"⟩), ⟨.orig, 1⟩,
        [.info "Applying effects", .info "Applying effect: TrimEffect",
          .errorExc "TrimEffect"]⟩) ∧
    ((applyEffects orcFail1 env0 [Effect.trim ⟨25, 45⟩] st0).res =
        .error (.ffmpegErr ⟨some "OUT2", some "ERR2"⟩) ∧
      (applyEffects orcFail1 env0 [Effect.trim ⟨25, 45⟩] st0).st.file =
        .trimmed 25 45 (acodecFor env0) .orig ∧
      LogEntry.errorPayload "OUT2" ∈
        (applyEffects orcFail1 env0 [Effect.trim ⟨25, 45⟩] st0).log ∧
      LogEntry.errorPayload "ERR2" ∈
        (applyEffects orcFail1 env0 [Effect.trim ⟨25, 45⟩] st0).log) ∧
    ((applyEffects orcOK env0 [Effect.trim ⟨25, 45⟩] st0).res = .ok () ∧
      (applyEffects orcOK env0 [Effect.trim ⟨25, 45⟩] st0).st.file =
        .encoded (buildGraph env0 [Effect.trim ⟨25, 45⟩]) (acodecFor env0) none
          (.trimmed 25 45 (acodecFor env0) .orig)) :=
  ⟨(c4_encode_step_atomicity orcFail0 env0 ⟨25, 45⟩ [] st0
      ⟨some "OUT", some "ERR"⟩ (by decide) (by decide)).1 rfl,
    (c4_encode_step_atomicity orcFail1 env0 ⟨25, 45⟩ [] st0
      ⟨some "OUT2", some "ERR2"⟩ (by decide) (by decide)).2.1 rfl rfl,
    (c4_encode_step_atomicity orcOK env0 ⟨25, 45⟩ [] st0
      ⟨none, none⟩ (by decide) (by decide)).2.2 rfl rfl⟩

/-- Claim C5 is false as stated: applying a Trim whose `end_time` (5) is
not greater than its `start_time` (10) succeeds with no range error; the
degenerate segment is passed straight to the encoder. -/
theorem c5_degenerate_trim_applies :
    (TrimEffect.applyE orcOK env0 ⟨10, 5⟩ st0).res = .ok () ∧
    (TrimEffect.applyE orcOK env0 ⟨10, 5⟩ st0).st.file =
      .trimmed 10 5 "copy" .orig :=
  ⟨rfl, rfl⟩

/-- Claim C5 amended: `TrimEffect.apply` performs no range validation;
a segment with `end_time ≤ start_time` is accepted and handed unchanged to
the external encoder (the code defines no `InvalidRangeError`). -/
theorem c5_no_trim_range_validation :
    ∀ (env : Env) (t : TrimEffect) (st : RunSt),
      t.end_time ≤ t.start_time → env.path ≠ "" →
      (t.applyE orcOK env st).res = .ok () ∧
      (t.applyE orcOK env st).st.file =
        .trimmed t.start_time t.end_time (acodecFor env) st.file := by
  intro env t st _ hp
  constructor <;>
    simp [TrimEffect.applyE, logApplyWrap, hp, liftEncode, runTrimEncode, orcOK]

/-- Witness for the amended C5 at the degenerate segment `[10, 5]`. -/
theorem c5_no_trim_range_validation_witness :
    (TrimEffect.applyE orcOK env0 ⟨10, 5⟩ st0).res = .ok () ∧
    (TrimEffect.applyE orcOK env0 ⟨10, 5⟩ st0).st.file =
      .trimmed 10 5 (acodecFor env0) .orig :=
  c5_no_trim_range_validation env0 ⟨10, 5⟩ st0 (by decide) (by decide)

/-- Claim C6 is false as stated: a `FillOverlayEffect` with opacity 3
(outside `[0, 1]`) raises no `ConfigError` anywhere; its apply succeeds and
the out-of-range opacity flows into the filter graph's alpha coefficient. -/
theorem c6_out_of_range_opacity_accepted :
    (FillOverlayEffect.applyE orcOK env0 ⟨"black", 3⟩ st0).res = .ok () ∧
    (FillOverlayEffect.applyE orcOK env0 ⟨"black", 3⟩ st0).st.file =
      .encoded (FillOverlayEffect.videoNode ⟨"black", 3⟩ env0 (.input "media.mp4"))
        "copy" (some "yuv420p") .orig :=
  ⟨rfl, rfl⟩

/-- Claim C6 amended: `FillOverlayEffect` performs no opacity validation;
any opacity value, including values outside `[0, 1]`, is accepted without
error and used directly as the overlay's alpha-mix coefficient. -/
theorem c6_no_opacity_validation :
    ∀ (env : Env) (f : FillOverlayEffect) (st : RunSt),
      (f.opacity < 0 ∨ 1 < f.opacity) → env.path ≠ "" →
      (f.applyE orcOK env st).res = .ok () ∧
      (f.applyE orcOK env st).st.file =
        .encoded (f.videoNode env (.input env.path)) (acodecFor env)
          (some "yuv420p") st.file ∧
      f.videoNode env (.input env.path) =
        .overlayOn (.formatRgba (.input env.path))
          (.alphaMix (.formatRgba (.colorSource f.color env.width env.height))
            f.opacity) 0 0 true := by
  intro env f st _ hp
  refine ⟨?_, ?_, rfl⟩ <;>
    simp [FillOverlayEffect.applyE, logApplyWrap, hp, liftEncode,
      runEncodeGraph, orcOK]

/-- Witness for the amended C6 at opacity 3. -/
theorem c6_no_opacity_validation_witness :
    (FillOverlayEffect.applyE orcOK env0 ⟨"black", 3⟩ st0).res = .ok () ∧
    (FillOverlayEffect.applyE orcOK env0 ⟨"black", 3⟩ st0).st.file =
      .encoded (FillOverlayEffect.videoNode ⟨"black", 3⟩ env0 (.input env0.path))
        (acodecFor env0) (some "yuv420p") .orig ∧
    FillOverlayEffect.videoNode ⟨"black", 3⟩ env0 (.input env0.path) =
      .overlayOn (.formatRgba (.input env0.path))
        (.alphaMix (.formatRgba (.colorSource "black" env0.width env0.height)) 3)
        0 0 true :=
  c6_no_opacity_validation env0 ⟨"black", 3⟩ st0 (Or.inr (by decide)) (by decide)

/-- The layout loop's survivorship is independent of the slot table: the
placed cues are exactly the spec's drop/stop survivors, with translated
windows and collapsed text. -/
theorem layoutCues_matches_survivors (startOff duration : ℚ) :
    ∀ (cues : List Cue) (spots : List (Nat × ℚ)),
      (layoutCues startOff duration cues spots).map
          (fun p => (p.index, p.text, p.startT, p.endT)) =
        (survivorsSpec startOff duration cues).map
          (fun c => (c.index, collapseText c.content,
            c.startT - startOff, c.endT - startOff)) := by
  intro cues
  induction cues with
  | nil => intro spots; simp [layoutCues, survivorsSpec]
  | cons c rest ih =>
      intro spots
      by_cases h1 : c.endT - startOff < 0
      · simp [layoutCues, survivorsSpec, h1, ih]
      · by_cases h2 : duration < c.startT - startOff
        · simp [layoutCues, survivorsSpec, h1, h2]
        · simp [layoutCues, survivorsSpec, h1, h2, ih]

/-- Claim C8: the subtitle pass drops each cue whose translated end time is
below 0, stops at the first cue whose translated start time exceeds the
duration window, and emits exactly one overlay entry per surviving cue (in
order, with the translated window and collapsed text); in particular the
spec's example list — one in-window cue then one cue starting after the
20-second window — yields exactly one overlay entry. -/
theorem c8_survivor_refinement :
    (∀ (startOff duration : ℚ) (cues : List Cue),
      (addSubtitlesProps startOff duration cues).length =
        (survivorsSpec startOff duration cues).length ∧
      (layoutCues startOff duration cues []).map
          (fun p => (p.index, p.text, p.startT, p.endT)) =
        (survivorsSpec startOff duration cues).map
          (fun c => (c.index, collapseText c.content,
            c.startT - startOff, c.endT - startOff))) ∧
    (addSubtitlesProps 0 20 [⟨1, "hello", 0, 5⟩, ⟨2, "later", 30, 35⟩]).length = 1 := by
  constructor
  · intro startOff duration cues
    have h := layoutCues_matches_survivors startOff duration cues []
    refine ⟨?_, h⟩
    have hlen := congrArg List.length h
    simpa [addSubtitlesProps] using hlen
  · norm_num [addSubtitlesProps, layoutCues, findSlot, findSlotFuel, slotOpen,
      spotLookup, INIT_OFFSET, FONT_SIZE]

/-- Number of slot-table keys lying on the candidate progression from `o`. -/
def progCount (o : Nat) (spots : List (Nat × ℚ)) : Nat :=
  spots.countP (fun p => inProg o p.1)

/-- A key on the progression from the next candidate offset is on the
progression from the current one. -/
theorem inProg_step_imp (o k : Nat) :
    inProg (o + FONT_SIZE) k = true → inProg o k = true := by
  simp [inProg, FONT_SIZE]
  omega

/-- Stepping the candidate offset cannot increase the progression count. -/
theorem progCount_mono (o : Nat) (spots : List (Nat × ℚ)) :
    progCount (o + FONT_SIZE) spots ≤ progCount o spots := by
  induction spots with
  | nil => simp [progCount]
  | cons p rest ih =>
      cases hB : inProg (o + FONT_SIZE) p.1 with
      | false =>
          have e2 : progCount (o + FONT_SIZE) (p :: rest) =
              progCount (o + FONT_SIZE) rest := by
            simp only [progCount]
            exact List.countP_cons_of_neg _ _ (by simp [hB])
          cases hA : inProg o p.1 with
          | false =>
              have e1 : progCount o (p :: rest) = progCount o rest := by
                simp only [progCount]
                exact List.countP_cons_of_neg _ _ (by simp [hA])
              rw [e1, e2]
              exact ih
          | true =>
              have e1 : progCount o (p :: rest) = progCount o rest + 1 := by
                simp only [progCount]
                exact List.countP_cons_of_pos _ _ hA
              rw [e1, e2]
              omega
      | true =>
          have hA : inProg o p.1 = true := inProg_step_imp o p.1 hB
          have e1 : progCount o (p :: rest) = progCount o rest + 1 := by
            simp only [progCount]
            exact List.countP_cons_of_pos _ _ hA
          have e2 : progCount (o + FONT_SIZE) (p :: rest) =
              progCount (o + FONT_SIZE) rest + 1 := by
            simp only [progCount]
            exact List.countP_cons_of_pos _ _ hB
          rw [e1, e2]
          omega

/-- If the current candidate offset is an occupied key, stepping past it
strictly decreases the progression count. -/
theorem progCount_strict (o : Nat) :
    ∀ (spots : List (Nat × ℚ)) (e : ℚ), spotLookup o spots = some e →
      progCount (o + FONT_SIZE) spots < progCount o spots := by
  intro spots
  induction spots with
  | nil => intro e h; simp [spotLookup] at h
  | cons p rest ih =>
      intro e h
      by_cases hk : p.1 = o
      · have h1 : inProg o p.1 = true := by
          rw [hk]
          simp [inProg]
        have h2 : inProg (o + FONT_SIZE) p.1 = false := by
          rw [hk]
          simp only [inProg, FONT_SIZE]
          have hno : ¬ (o + 35 ≤ o) := by omega
          simp [hno]
        have e1 : progCount o (p :: rest) = progCount o rest + 1 := by
          simp only [progCount]
          exact List.countP_cons_of_pos _ _ h1
        have e2 : progCount (o + FONT_SIZE) (p :: rest) =
            progCount (o + FONT_SIZE) rest := by
          simp only [progCount]
          exact List.countP_cons_of_neg _ _ (by simp [h2])
        rw [e1, e2]
        exact Nat.lt_succ_of_le (progCount_mono o rest)
      · have h' : spotLookup o rest = some e := by
          rw [spotLookup, if_neg hk] at h
          exact h
        have hlt := ih e h'
        cases hA : inProg o p.1 with
        | false =>
            have hB : inProg (o + FONT_SIZE) p.1 = false := by
              cases hB : inProg (o + FONT_SIZE) p.1 with
              | false => rfl
              | true =>
                  have := inProg_step_imp o p.1 hB
                  rw [hA] at this
                  exact absurd this (by simp)
            have e1 : progCount o (p :: rest) = progCount o rest := by
              simp only [progCount]
              exact List.countP_cons_of_neg _ _ (by simp [hA])
            have e2 : progCount (o + FONT_SIZE) (p :: rest) =
                progCount (o + FONT_SIZE) rest := by
              simp only [progCount]
              exact List.countP_cons_of_neg _ _ (by simp [hB])
            rw [e1, e2]
            exact hlt
        | true =>
            have e1 : progCount o (p :: rest) = progCount o rest + 1 := by
              simp only [progCount]
              exact List.countP_cons_of_pos _ _ hA
            rw [e1]
            cases hB : inProg (o + FONT_SIZE) p.1 with
            | false =>
                have e2 : progCount (o + FONT_SIZE) (p :: rest) =
                    progCount (o + FONT_SIZE) rest := by
                  simp only [progCount]
                  exact List.countP_cons_of_neg _ _ (by simp [hB])
                rw [e2]
                omega
            | true =>
                have e2 : progCount (o + FONT_SIZE) (p :: rest) =
                    progCount (o + FONT_SIZE) rest + 1 := by
                  simp only [progCount]
                  exact List.countP_cons_of_pos _ _ hB
                rw [e2]
                omega

/-- With fuel exceeding the progression count, the fuelled slot scan stops
at an offset satisfying the loop-exit test. -/
theorem findSlotFuel_open :
    ∀ (fuel : Nat) (spots : List (Nat × ℚ)) (startT : ℚ) (o : Nat),
      progCount o spots < fuel →
      slotOpen spots startT (findSlotFuel spots startT fuel o) = true := by
  intro fuel
  induction fuel with
  | zero => intro spots startT o h; omega
  | succ n ih =>
      intro spots startT o h
      by_cases hopen : slotOpen spots startT o = true
      · simp [findSlotFuel, hopen]
      · have hrw : findSlotFuel spots startT (n + 1) o =
            findSlotFuel spots startT n (o + FONT_SIZE) := by
          simp [findSlotFuel, hopen]
        rw [hrw]
        apply ih
        have hsome : ∃ e, spotLookup o spots = some e := by
          cases hl : spotLookup o spots with
          | none => exact absurd (by simp [slotOpen, hl]) hopen
          | some e => exact ⟨e, rfl⟩
        obtain ⟨e, he⟩ := hsome
        have := progCount_strict o spots e he
        omega

/-- The slot chosen by the scan of `add_subtitles` always satisfies the
loop-exit test: the offset is unused or its last recorded end time is at
most the cue's start time. -/
theorem findSlot_open (spots : List (Nat × ℚ)) (startT : ℚ) :
    slotOpen spots startT (findSlot spots startT) = true := by
  apply findSlotFuel_open
  have hle : spots.countP (fun p => inProg INIT_OFFSET p.1) ≤ spots.length :=
    List.countP_le_length _
  simp only [progCount]
  omega

/-- Slot-table soundness of the layout loop: any placed cue whose slot was
already a key of the incoming table starts no earlier than the end time the
incoming table records there (provided every cue's window is nonempty). -/
theorem layout_mono (startOff duration : ℚ) :
    ∀ (cues : List Cue) (spots : List (Nat × ℚ)),
      (∀ c ∈ cues, c.startT < c.endT) →
      ∀ q ∈ layoutCues startOff duration cues spots,
        ∀ e, spotLookup q.slot spots = some e → e ≤ q.startT := by
  intro cues
  induction cues with
  | nil => intro spots _ q hq; simp [layoutCues] at hq
  | cons c rest ih =>
      intro spots hwf q hq e he
      have hwfc : c.startT < c.endT := hwf c (by simp)
      have hwfr : ∀ x ∈ rest, x.startT < x.endT := fun x hx => hwf x (by simp [hx])
      by_cases h1 : c.endT - startOff < 0
      · exact ih spots hwfr q (by simpa [layoutCues, h1] using hq) e he
      · by_cases h2 : duration < c.startT - startOff
        · simp [layoutCues, h1, h2] at hq
        · have hq' : q = (⟨c.index, collapseText c.content, c.startT - startOff,
              c.endT - startOff, findSlot spots (c.startT - startOff)⟩ : PlacedCue) ∨
              q ∈ layoutCues startOff duration rest
                ((findSlot spots (c.startT - startOff), c.endT - startOff) :: spots) := by
            simpa [layoutCues, h1, h2] using hq
          have hopen := findSlot_open spots (c.startT - startOff)
          rcases hq' with rfl | hq'
          · simp only at he
            simpa [slotOpen, he] using hopen
          · by_cases hko : q.slot = findSlot spots (c.startT - startOff)
            · have hlook : spotLookup q.slot
                  ((findSlot spots (c.startT - startOff), c.endT - startOff) :: spots) =
                    some (c.endT - startOff) := by
                simp [spotLookup, hko]
              have h3 := ih _ hwfr q hq' _ hlook
              rw [hko] at he
              have h4 : e ≤ c.startT - startOff := by
                simpa [slotOpen, he] using hopen
              have h5 : c.startT - startOff < c.endT - startOff := by linarith
              linarith
            · have hlook : spotLookup q.slot
                  ((findSlot spots (c.startT - startOff), c.endT - startOff) :: spots) =
                    some e := by
                rw [spotLookup, if_neg (fun hx => hko hx.symm)]
                exact he
              exact ih _ hwfr q hq' e hlook

/-- Slot reuse discipline of the layout loop: among the placed cues, an
earlier cue sharing a slot with a later one ends no later than the later
one starts (provided every cue's window is nonempty). -/
theorem layout_pairwise (startOff duration : ℚ) :
    ∀ (cues : List Cue) (spots : List (Nat × ℚ)),
      (∀ c ∈ cues, c.startT < c.endT) →
      (layoutCues startOff duration cues spots).Pairwise
        (fun p q => p.slot = q.slot → p.endT ≤ q.startT) := by
  intro cues
  induction cues with
  | nil => intro spots _; simp [layoutCues]
  | cons c rest ih =>
      intro spots hwf
      have hwfr : ∀ x ∈ rest, x.startT < x.endT := fun x hx => hwf x (by simp [hx])
      by_cases h1 : c.endT - startOff < 0
      · simpa [layoutCues, h1] using ih spots hwfr
      · by_cases h2 : duration < c.startT - startOff
        · simp [layoutCues, h1, h2]
        · have hred : layoutCues startOff duration (c :: rest) spots =
              ⟨c.index, collapseText c.content, c.startT - startOff,
                c.endT - startOff, findSlot spots (c.startT - startOff)⟩ ::
                layoutCues startOff duration rest
                  ((findSlot spots (c.startT - startOff), c.endT - startOff) :: spots) := by
            simp [layoutCues, h1, h2]
          rw [hred]
          refine List.Pairwise.cons ?_ (ih _ hwfr)
          intro q hq hslot
          have hlook : spotLookup q.slot
              ((findSlot spots (c.startT - startOff), c.endT - startOff) :: spots) =
                some (c.endT - startOff) := by
            simp only at hslot
            simp [spotLookup, hslot]
          exact layout_mono startOff duration rest _ hwfr q hq _ hlook

/-- Claim C7 is false as stated ("for every cue list processed"): in a cue
list containing a degenerate cue whose end precedes its start (the middle
cue, window `[10, 3)`), the layout loop places two genuinely overlapping
cues — windows `[0, 10)` and `[5, 30)` — at the SAME vertical offset 20:
the degenerate cue lowers the end time recorded at that offset, so the
offset is reused while the first cue is still active. -/
theorem c7_degenerate_cue_shares_slot :
    layoutCues 0 40 [⟨1, "a", 0, 10⟩, ⟨2, "b", 10, 3⟩, ⟨3, "c", 5, 30⟩] [] =
      [⟨1, "a", 0, 10, 20⟩, ⟨2, "b", 10, 3, 20⟩, ⟨3, "c", 5, 30, 20⟩] ∧
    windowsOverlap ⟨1, "a", 0, 10, 20⟩ ⟨3, "c", 5, 30, 20⟩ := by
  constructor
  · norm_num [layoutCues, findSlot, findSlotFuel, slotOpen, spotLookup,
      INIT_OFFSET, FONT_SIZE]
    decide
  · exact ⟨by norm_num, by norm_num⟩

/-- Claim C7 amended: provided every cue's window is nonempty
(`start < end`, as in any well-formed subtitle track), any two placed cues
with overlapping translated `[start, end)` windows are assigned different
vertical offsets; and unconditionally, the slot scan only ever assigns an
offset that is either unused or whose last recorded end time is at most the
new cue's start time. -/
theorem c7_overlap_distinct_slots :
    (∀ (startOff duration : ℚ) (cues : List Cue),
        (∀ c ∈ cues, c.startT < c.endT) →
        (layoutCues startOff duration cues []).Pairwise
          (fun p q => windowsOverlap p q → p.slot ≠ q.slot)) ∧
    (∀ (spots : List (Nat × ℚ)) (startT : ℚ),
        slotOpen spots startT (findSlot spots startT) = true) := by
  constructor
  · intro startOff duration cues hwf
    refine (layout_pairwise startOff duration cues [] hwf).imp ?_
    intro p q hpq hov heq
    exact absurd hov.2 (not_lt.2 (hpq heq))
  · exact fun spots startT => findSlot_open spots startT

/-- Witness for the amended C7 on a concrete pair of overlapping well-formed
cues. -/
theorem c7_overlap_distinct_slots_witness :
    (layoutCues 0 20 [⟨1, "x", 0, 6⟩, ⟨2, "y", 3, 8⟩] []).Pairwise
      (fun p q => windowsOverlap p q → p.slot ≠ q.slot) :=
  c7_overlap_distinct_slots.1 0 20 [⟨1, "x", 0, 6⟩, ⟨2, "y", 3, 8⟩] (by decide)

/-- `pickFont` is the first match of the "noto" basename test. -/
theorem pickFont_eq_find (fonts : List FontFile) :
    pickFont fonts = fonts.find? notoNamed := by
  induction fonts with
  | nil => simp [pickFont]
  | cons f rest ih =>
      by_cases h : notoNamed f
      · simp [pickFont, List.find?, h]
      · simp [pickFont, List.find?, h, ih]

/-- Claim C9 is false as stated: with no available fonts, resolution raises
`IndexError` (from `random.choice` on an empty list) — there is no built-in
default fallback; and with a font whose name merely CONTAINS "noto"
("ANoto.ttf") next to an unrelated font, the unrelated font can be chosen —
the code's preference is a case-insensitive PREFIX test, not a substring
match. -/
theorem c9_no_default_and_prefix_only :
    getCurrentFont none [] 0 = .error .indexErr ∧
    (getCurrentFont none [⟨"ANoto.ttf", "/f/ANoto.ttf"⟩, ⟨"B.ttf", "/f/B.ttf"⟩] 1 =
      .ok ("/f/B.ttf", some "/f/B.ttf")) ∧
    hasNotoSub "ANoto.ttf" = true ∧
    hasNotoSub "B.ttf" = false := by
  refine ⟨rfl, by decide, by decide, by decide⟩

/-- Claim C9 amended: when no explicit font is given, resolution prefers
the first font whose basename STARTS WITH "noto" case-insensitively,
otherwise falls back to an arbitrary (randomly chosen) available font, and
with no font available it fails with an error rather than a built-in
default; a cached font is always returned as-is, and any successful
resolution stores exactly the returned font in the cache. -/
theorem c9_font_resolution :
    (∀ (f : String) (fonts : List FontFile) (i : Nat),
        getCurrentFont (some f) fonts i = .ok (f, some f)) ∧
    (∀ (fonts : List FontFile) (i : Nat) (r : String × Option String),
        getCurrentFont none fonts i = .ok r → r.2 = some r.1) ∧
    (∀ (fonts : List FontFile) (i : Nat) (f : FontFile),
        fonts.find? notoNamed = some f →
        getCurrentFont none fonts i = .ok (f.path, some f.path)) ∧
    (∀ (f : FontFile) (rest : List FontFile) (i : Nat),
        (f :: rest).find? notoNamed = none →
        getCurrentFont none (f :: rest) i =
          .ok (((f :: rest).getD (i % (rest.length + 1)) f).path,
            some (((f :: rest).getD (i % (rest.length + 1)) f).path))) ∧
    (∀ i : Nat, getCurrentFont none [] i = .error .indexErr) := by
  refine ⟨fun f fonts i => rfl, ?_, ?_, ?_, fun i => rfl⟩
  · intro fonts i r h
    rw [getCurrentFont] at h
    cases hp : pickFont fonts with
    | some f =>
        rw [hp] at h
        cases h
        rfl
    | none =>
        rw [hp] at h
        cases hr : randomChoice fonts i with
        | ok f =>
            rw [hr] at h
            cases h
            rfl
        | error e =>
            rw [hr] at h
            cases h
  · intro fonts i f h
    rw [getCurrentFont, pickFont_eq_find, h]
  · intro f rest i h
    rw [getCurrentFont, pickFont_eq_find, h, randomChoice]

/-- Witness for the amended C9: a "noto"-prefixed font is preferred
regardless of the random draw, and the no-match case falls back to the
drawn font. -/
theorem c9_font_resolution_witness :
    getCurrentFont none [⟨"B.ttf", "/b.ttf"⟩, ⟨"NotoSans.ttf", "/n.ttf"⟩] 5 =
      .ok ("/n.ttf", some "/n.ttf") ∧
    getCurrentFont none [⟨"A.ttf", "/a.ttf"⟩, ⟨"B.ttf", "/b.ttf"⟩] 1 =
      .ok ("/b.ttf", some "/b.ttf") :=
  ⟨c9_font_resolution.2.2.1 [⟨"B.ttf", "/b.ttf"⟩, ⟨"NotoSans.ttf", "/n.ttf"⟩] 5
      ⟨"NotoSans.ttf", "/n.ttf"⟩ (by decide),
    c9_font_resolution.2.2.2.1 ⟨"A.ttf", "/a.ttf"⟩ [⟨"B.ttf", "/b.ttf"⟩] 1
      (by decide)⟩

end Lyricshort
